import Mathlib

/-!
Shallow embedding of the AgentPro ReAct agent core
(`agentpro/agent.py` and its tool contract), together with models of the
Python string and `json` primitives the code uses.  Definitions mirror the
source line by line; theorems at the end of the file settle the spec claims.
-/

/-! ### Python string primitives -/

/-- Whitespace characters recognised by Python `str.strip()` (ASCII subset). -/
def pyIsSpace (c : Char) : Bool :=
  c = ' ' || c = '\t' || c = '\n' || c = '\r' || c = '\x0b' || c = '\x0c'

/-- Python `s.strip()`: remove leading and trailing whitespace. -/
def pyStrip (s : String) : String :=
  String.mk (((s.toList.dropWhile pyIsSpace).reverse.dropWhile pyIsSpace).reverse)

/-- Python `s.lower()` (ASCII case folding). -/
def pyLower (s : String) : String :=
  String.mk (s.toList.map Char.toLower)

/-- Python `s.startswith(p)`. -/
def pyStartsWith (s p : String) : Bool :=
  p.toList.isPrefixOf s.toList

/-- Index of the leftmost occurrence of `sep` in a character list
    (Python `s.find(sep)` restricted to found/not-found). -/
def findSub (sep : List Char) : List Char → Option Nat
  | [] => if sep.isPrefixOf ([] : List Char) then some 0 else Option.none
  | c :: t =>
    if sep.isPrefixOf (c :: t) then some 0
    else (findSub sep t).map (· + 1)

/-- Fuel-indexed split of a character list on a separator, leftmost and
    non-overlapping, as Python `str.split(sep)` computes it. -/
def splitOnCL (sep : List Char) : List Char → Nat → List (List Char)
  | s, 0 => [s]
  | s, fuel+1 =>
    match findSub sep s with
    | Option.none => [s]
    | some i => s.take i :: splitOnCL sep (s.drop (i + sep.length)) fuel

/-- Python `s.split(sep)` for a non-empty separator. -/
def pySplit (s sep : String) : List String :=
  (splitOnCL sep.toList s.toList (s.toList.length + 1)).map String.mk

/-- Python `sep.join(xs)`. -/
def pyJoin (sep : String) (xs : List String) : String :=
  String.intercalate sep xs

/-- Python `s.replace(old, new)`: replaces every non-overlapping occurrence,
    equivalent to `new.join(s.split(old))`. -/
def pyReplace (s old new : String) : String :=
  pyJoin new (pySplit s old)

/-- Python substring containment `sub in s`. -/
def pyIn (sub s : String) : Bool :=
  (findSub sub.toList s.toList).isSome

/-- Python `xs[-1]` on a split result (split results are never empty). -/
def pyLast (xs : List String) : String :=
  xs.getLastD ""

/-! ### Model of Python objects and `json.loads`

`json.loads` is the decoder the parser applies to the joined action-input
buffer.  Decoded dicts are modelled as association lists in parse order. -/

/-- A decoded Python value as produced by `json.loads` (JSON `null` decodes
    to Python `None`; non-integer numerals are kept as their lexeme, since
    no behaviour in this core depends on float arithmetic). -/
inductive PyObj where
  | null
  | bool (b : Bool)
  | int (n : Int)
  | float (raw : String)
  | str (s : String)
  | list (xs : List PyObj)
  | dict (kvs : List (String × PyObj))
deriving Repr

/-- JSON whitespace skipping (space, tab, newline, carriage return). -/
def skipWs (s : List Char) : List Char :=
  s.dropWhile (fun c => c = ' ' || c = '\t' || c = '\n' || c = '\r')

/-- Hexadecimal digit value. -/
def hexVal (c : Char) : Option Nat :=
  if '0' ≤ c ∧ c ≤ '9' then some (c.toNat - '0'.toNat)
  else if 'a' ≤ c ∧ c ≤ 'f' then some (c.toNat - 'a'.toNat + 10)
  else if 'A' ≤ c ∧ c ≤ 'F' then some (c.toNat - 'A'.toNat + 10)
  else Option.none

/-- Decode a `\uXXXX` escape quadruple. -/
def hex4 (h1 h2 h3 h4 : Char) : Option Nat :=
  match hexVal h1, hexVal h2, hexVal h3, hexVal h4 with
  | some a, some b, some c, some d => some (((a * 16 + b) * 16 + c) * 16 + d)
  | _, _, _, _ => Option.none

/-- Body of a JSON string, after the opening quote: fuel-indexed scan that
    handles the escape table and rejects raw control characters, as the
    strict Python decoder does.  Lone surrogate escapes are rejected (they
    are not representable as scalar values). -/
def jsonStringBody : Nat → List Char → List Char → Option (String × List Char)
  | 0, _, _ => Option.none
  | _+1, _, [] => Option.none
  | fuel+1, acc, c :: rest =>
    if c = '"' then some (String.mk acc.reverse, rest)
    else if c = '\\' then
      match rest with
      | '"' :: r => jsonStringBody fuel ('"' :: acc) r
      | '\\' :: r => jsonStringBody fuel ('\\' :: acc) r
      | '/' :: r => jsonStringBody fuel ('/' :: acc) r
      | 'b' :: r => jsonStringBody fuel ('\x08' :: acc) r
      | 'f' :: r => jsonStringBody fuel ('\x0c' :: acc) r
      | 'n' :: r => jsonStringBody fuel ('\n' :: acc) r
      | 'r' :: r => jsonStringBody fuel ('\r' :: acc) r
      | 't' :: r => jsonStringBody fuel ('\t' :: acc) r
      | 'u' :: h1 :: h2 :: h3 :: h4 :: r =>
        match hex4 h1 h2 h3 h4 with
        | some n =>
          if 0xD800 ≤ n ∧ n ≤ 0xDBFF then
            match r with
            | '\\' :: 'u' :: g1 :: g2 :: g3 :: g4 :: r2 =>
              match hex4 g1 g2 g3 g4 with
              | some m =>
                if 0xDC00 ≤ m ∧ m ≤ 0xDFFF then
                  jsonStringBody fuel
                    (Char.ofNat (0x10000 + (n - 0xD800) * 0x400 + (m - 0xDC00)) :: acc) r2
                else Option.none
              | Option.none => Option.none
            | _ => Option.none
          else if 0xDC00 ≤ n ∧ n ≤ 0xDFFF then Option.none
          else jsonStringBody fuel (Char.ofNat n :: acc) r
        | Option.none => Option.none
      | _ => Option.none
    else if c.toNat < 32 then Option.none
    else jsonStringBody fuel (c :: acc) rest

/-- ASCII decimal digit test. -/
def isDigitC (c : Char) : Bool :=
  '0' ≤ c && c ≤ '9'

/-- Numeric value of a digit list. -/
def digitsToNat (ds : List Char) : Nat :=
  ds.foldl (fun a c => a * 10 + (c.toNat - '0'.toNat)) 0

/-- JSON number token at the head of the input, following the decoder's
    grammar `-?(0|[1-9]\d*)(\.\d+)?([eE][+-]?\d+)?` plus the `NaN`,
    `Infinity` and `-Infinity` literals the Python decoder accepts. -/
def jsonNumber (s : List Char) : Option (PyObj × List Char) :=
  if ("NaN".toList).isPrefixOf s then some (.float "NaN", s.drop 3)
  else if ("Infinity".toList).isPrefixOf s then some (.float "Infinity", s.drop 8)
  else if ("-Infinity".toList).isPrefixOf s then some (.float "-Infinity", s.drop 9)
  else
    let negAndRest : Bool × List Char :=
      match s with
      | '-' :: r => (true, r)
      | _ => (false, s)
    let neg := negAndRest.1
    let s1 := negAndRest.2
    let ds := s1.takeWhile isDigitC
    if ds = [] then Option.none
    else
      let intDigits := if ds.head? = some '0' then ['0'] else ds
      let s2 := s1.drop intDigits.length
      let fracAndRest : List Char × List Char :=
        match s2 with
        | '.' :: r =>
          let fd := r.takeWhile isDigitC
          if fd = [] then ([], s2) else (fd, r.drop fd.length)
        | _ => ([], s2)
      let fracDigits := fracAndRest.1
      let s3 := fracAndRest.2
      let expAndRest : List Char × List Char :=
        match s3 with
        | c :: r =>
          if c = 'e' ∨ c = 'E' then
            match r with
            | sc :: r2 =>
              if sc = '+' ∨ sc = '-' then
                let ed := r2.takeWhile isDigitC
                if ed = [] then ([], s3) else ([c, sc] ++ ed, r2.drop ed.length)
              else
                let ed := r.takeWhile isDigitC
                if ed = [] then ([], s3) else ([c] ++ ed, r.drop ed.length)
            | [] => ([], s3)
          else ([], s3)
        | [] => ([], s3)
      let expChars := expAndRest.1
      let s4 := expAndRest.2
      if fracDigits = [] ∧ expChars = [] then
        some (.int (if neg then -(digitsToNat intDigits : Int) else (digitsToNat intDigits : Int)), s2)
      else
        let raw := (if neg then ['-'] else []) ++ intDigits ++
          (if fracDigits = [] then [] else '.' :: fracDigits) ++ expChars
        some (.float (String.mk raw), s4)

mutual

/-- JSON value at the head of the input (leading whitespace already
    consumed by the caller), fuel-indexed. -/
def jsonValue : Nat → List Char → Option (PyObj × List Char)
  | 0, _ => Option.none
  | fuel+1, s =>
    if ("true".toList).isPrefixOf s then some (.bool true, s.drop 4)
    else if ("false".toList).isPrefixOf s then some (.bool false, s.drop 5)
    else if ("null".toList).isPrefixOf s then some (.null, s.drop 4)
    else
      match s with
      | '"' :: rest => (jsonStringBody (rest.length + 1) [] rest).map
          (fun p => (PyObj.str p.1, p.2))
      | '{' :: rest =>
        match skipWs rest with
        | '}' :: r => some (.dict [], r)
        | r => jsonMembers fuel r []
      | '[' :: rest =>
        match skipWs rest with
        | ']' :: r => some (.list [], r)
        | r => jsonElems fuel r []
      | _ => jsonNumber s

/-- Members of a JSON object after the opening brace (and not empty). -/
def jsonMembers : Nat → List Char → List (String × PyObj) → Option (PyObj × List Char)
  | 0, _, _ => Option.none
  | fuel+1, s, acc =>
    match s with
    | '"' :: rest =>
      match jsonStringBody (rest.length + 1) [] rest with
      | some (key, r1) =>
        match skipWs r1 with
        | ':' :: r2 =>
          match jsonValue fuel (skipWs r2) with
          | some (v, r3) =>
            match skipWs r3 with
            | ',' :: r4 => jsonMembers fuel (skipWs r4) (acc ++ [(key, v)])
            | '}' :: r4 => some (.dict (acc ++ [(key, v)]), r4)
            | _ => Option.none
          | Option.none => Option.none
        | _ => Option.none
      | Option.none => Option.none
    | _ => Option.none

/-- Elements of a JSON array after the opening bracket (and not empty). -/
def jsonElems : Nat → List Char → List PyObj → Option (PyObj × List Char)
  | 0, _, _ => Option.none
  | fuel+1, s, acc =>
    match jsonValue fuel s with
    | some (v, r1) =>
      match skipWs r1 with
      | ',' :: r2 => jsonElems fuel (skipWs r2) (acc ++ [v])
      | ']' :: r2 => some (.list (acc ++ [v]), r2)
      | _ => Option.none
    | Option.none => Option.none

end

/-- Python `json.loads`: skip leading whitespace, decode one value, require
    only whitespace afterwards; `Option.none` models `JSONDecodeError`. -/
def jsonLoads (s : String) : Option PyObj :=
  match jsonValue (s.toList.length + 1) (skipWs s.toList) with
  | some (v, rest) => if skipWs rest = [] then some v else Option.none
  | Option.none => Option.none

/-- The `try: json.loads ... except (JSONDecodeError, TypeError): pass`
    step of `parse_action_string` (agent.py lines 143-148): decoded value
    on success, the raw string unchanged on failure. -/
def decodeOrRaw (s : String) : PyObj :=
  match jsonLoads s with
  | some v => v
  | Option.none => PyObj.str s

/-! ### Tool contract and registry -/

/-- Modelled from the spec: the tool base class (`agentpro/tools/base.py`)
    is not among the examined sources; per the spec a tool exposes a display
    `name`, a `description`, an argument-shape hint, a catalogue-formatting
    method producing a human-readable block, and a synchronous
    `run(input) -> text` contract which may raise — modelled as `Except`
    with the error carrying the exception text. -/
structure Tool where
  name : String
  description : String
  arg : String
  get_tool_description : String
  run : PyObj → Except String String

/-- The agent's registry: an association list standing for the Python
    `dict`, in insertion order. -/
abbrev Registry := List (String × Tool)

/-- `AgentPro.format_tools` (agent.py lines 90-101):
    `dict(zip(tool_names, tools))` with
    `tool_names = list(map(lambda tool: tool.name, tools))` — the keys are
    the raw display names. -/
def format_tools (toolList : List Tool) : Registry :=
  toolList.map (fun t => (t.name, t))

/-- Python `dict` lookup on the association list: the last binding of a key
    wins, since a later insertion overwrites an earlier one. -/
def dictGet (d : Registry) (k : String) : Option Tool :=
  (d.reverse.find? (fun p => p.1 == k)).map (fun p => p.2)

/-- Python `list(d.keys())`: keys in first-insertion order, deduplicated. -/
def dictKeys (d : Registry) : List String :=
  (d.map (fun p => p.1)).eraseDups

/-! ### Conversation history and initialization -/

/-- One role-tagged message of the conversation history. -/
structure Message where
  role : String
  content : String
deriving Repr, DecidableEq

/-- `REACT_AGENT_SYSTEM_PROMPT` (agent.py lines 9-46), verbatim. -/
def REACT_AGENT_SYSTEM_PROMPT : String :=
  "\nYou are an intelligent AI agent equipped with external tools that you can call to solve problems and answer questions accurately.\n\nYou have access to the following tools:\n\n{tools}\n\nIMPORTANT INSTRUCTIONS:\n\n1. Think step-by-step before using any tool.\n2. Use tools when:\n   - You need real-time or factual information\n   - A task requires code execution, file generation, or structured output\n   - The answer depends on specialized functionality that a tool provides\n3. Choose the most relevant tool from: [{tool_names}]\n4. Format your Action Input exactly as required by the tool description.\n   - If the input requires JSON or structured text, format it correctly.\n   - Do not guessâ€”use valid syntax.\n5. After a tool returns a result (Observation), reflect on how it helps answer the question.\n6. Use the exact tool output in your Final Answer when appropriate.\n7. If no tool provides helpful output, say so in your Final Answer.\n8. Never hallucinate or fabricate facts. Always rely on tool output for factual claims.\n9. You may use multiple Thought/Action/Observation steps if needed.\n10. Always conclude with `Final Answer:`.\n\nUse the following format:\n\nQuestion: the input question you must answer\nThought: you should always think about what to do\nAction: the action to take, should be one of [{tool_names}]\nAction Input: the input to the action\nObservation: the result of the action\n... (this Thought/Action/Action Input/Observation can repeat N times)\nThought: I now know the final answer based on the tool results\nFinal Answer: the final answer to the original input question, incorporating the exact information from the tools\n\nBegin!\n"

/-- `react_prompt.format(tools=..., tool_names=...)` (agent.py lines 77-80):
    the catalogue block and the comma-joined name list are substituted for
    the two placeholders (the substituted tool text is external data assumed
    not to contain a placeholder itself). -/
def formatReactPrompt (toolList : List Tool) : String :=
  pyReplace
    (pyReplace REACT_AGENT_SYSTEM_PROMPT "{tools}"
      (pyJoin "\n\n" (toolList.map (fun t => t.get_tool_description))))
    "{tool_names}" (pyJoin ", " (toolList.map (fun t => t.name)))

/-- The conversation history built by `AgentPro.__init__`
    (agent.py lines 82-88): the optional custom system prompt (skipped when
    `None` or empty, by Python truthiness), then the formatted react
    prompt.  -/
def initMessages (system_prompt : Option String) (react_prompt : String) : List Message :=
  (match system_prompt with
   | some s => if s = "" then [] else [{ role := "system", content := s }]
   | Option.none => []) ++ [{ role := "system", content := react_prompt }]

/-! ### Action parser -/

/-- The scan state of `parse_action_string` (agent.py lines 114-117). -/
structure ParseState where
  action : Option String
  action_input : List String
  is_action_input : Bool
deriving Repr, DecidableEq

/-- One line of the `parse_action_string` scan (agent.py lines 119-138). -/
def parse_step (st : ParseState) (line : String) : ParseState :=
  if pyStartsWith line "Action:" then
    { st with action := some (pyStrip (pyReplace line "Action:" "")) }
  else if pyStartsWith line "Action Input:" then
    { action := st.action,
      action_input :=
        if pyStrip (pyReplace line "Action Input:" "") ≠ "" then
          st.action_input ++ [pyStrip (pyReplace line "Action Input:" "")]
        else st.action_input,
      is_action_input := true }
  else if pyStartsWith line "Observation:" then
    { st with is_action_input := false }
  else if st.is_action_input ∧ pyStrip line ≠ "" then
    { st with action_input := st.action_input ++ [pyStrip line] }
  else st

/-- `parse_action_string` on an already-split line list: fold the scan, join
    the buffered input with newlines, then decode opportunistically
    (agent.py lines 119-150). -/
def parse_lines (lines : List String) : Option String × PyObj :=
  let st := lines.foldl parse_step
    { action := Option.none, action_input := [], is_action_input := false }
  (st.action, decodeOrRaw (pyJoin "\n" st.action_input))

/-- `AgentPro.parse_action_string` (agent.py lines 103-150). -/
def parse_action_string (text : String) : Option String × PyObj :=
  parse_lines (pySplit text "\n")

/-! ### Tool dispatcher -/

/-- Python `f"{xs}"` on a list of strings. -/
def pyListRepr (xs : List String) : String :=
  "[" ++ pyJoin ", " (xs.map (fun s => "'" ++ s ++ "'")) ++ "]"

/-- Python `f"{action}"` on an optional string (`None` prints as `None`). -/
def pyFmtOptStr : Option String → String
  | Option.none => "None"
  | some a => a

/-- The miss branch of `tool_call` (agent.py lines 182-185). -/
def toolNotFound (action : Option String) (tools : Registry) : String :=
  "Observation: Tool '" ++ pyFmtOptStr action ++ "' not found. Available tools: " ++
    pyListRepr (dictKeys tools)

/-- `AgentPro.tool_call` (agent.py lines 152-189): parse the response, look
    the action up by `action.strip().lower()`, run the tool inside the
    `try`, and wrap any exception into an error observation. -/
def tool_call (tools : Registry) (response : String) : String :=
  match parse_action_string response with
  | (some a, action_input) =>
    if a ≠ "" then
      match dictGet tools (pyLower (pyStrip a)) with
      | some tool =>
        match tool.run action_input with
        | Except.ok obs => "Observation: " ++ obs
        | Except.error e =>
            "Observation: There was an error executing the tool\nError: " ++ e
      | Option.none => toolNotFound (some a) tools
    else toolNotFound (some a) tools
  | (Option.none, _) => toolNotFound Option.none tools

/-! ### Conversation loop -/

/-- Result of one run of the conversation loop, instrumented with the
    number of model calls attempted and tools dispatched. -/
structure LoopResult where
  messages : List Message
  modelCalls : Nat
  dispatches : Nat
  answer : String
deriving Repr, DecidableEq

/-- The fixed exhaustion message (agent.py line 258). -/
def exhaustMsg : String :=
  "The agent was unable to provide a conclusive answer after multiple steps."

/-- `max_steps = 10  # Safety limit to prevent infinite loops`
    (agent.py line 209). -/
def max_steps : Nat := 10

/-- The `while step_count < max_steps` body of `AgentPro.__call__`
    (agent.py lines 214-258), with the remaining step budget as fuel.  The
    model client is an opaque call returning either the stripped-to-be
    content string or an exception text. -/
def loop (tools : Registry) (llm : List Message → Except String String) :
    List Message → Nat → LoopResult
  | msgs, 0 =>
    { messages := msgs, modelCalls := 0, dispatches := 0, answer := exhaustMsg }
  | msgs, fuel+1 =>
    match llm msgs with
    | Except.error e =>
      { messages := msgs, modelCalls := 1, dispatches := 0,
        answer := "Error: Could not get a response from the model - " ++ e }
    | Except.ok content =>
      let response := pyStrip content
      let msgs1 := msgs ++ [{ role := "assistant", content := response }]
      if pyIn "Final Answer" response then
        { messages := msgs1, modelCalls := 1, dispatches := 0,
          answer := pyStrip (pyLast (pySplit response "Final Answer:")) }
      else if pyIn "Action" response && pyIn "Action Input" response then
        let r := loop tools llm
          (msgs1 ++ [{ role := "assistant", content := tool_call tools response }]) fuel
        { messages := r.messages, modelCalls := r.modelCalls + 1,
          dispatches := r.dispatches + 1, answer := r.answer }
      else
        let r := loop tools llm msgs1 fuel
        { messages := r.messages, modelCalls := r.modelCalls + 1,
          dispatches := r.dispatches, answer := r.answer }

/-- `AgentPro.__call__` (agent.py lines 191-258): append the user prompt,
    then run the loop with the full step budget. -/
def agentCall (tools : Registry) (llm : List Message → Except String String)
    (msgs : List Message) (prompt : String) : LoopResult :=
  loop tools llm (msgs ++ [{ role := "user", content := prompt }]) max_steps

/-! ### Concrete instances used for evaluating the model on examples -/

/-- A tool whose display name is the human-readable form from the spec's
    registry-normalization example. -/
def aresLikeTool : Tool :=
  { name := "Ares Internet Search Tool", description := "d", arg := "a",
    get_tool_description := "g", run := fun _ => Except.ok "ok" }

/-- A tool whose `run` always raises. -/
def failTool : Tool :=
  { name := "t", description := "d", arg := "a",
    get_tool_description := "g", run := fun _ => Except.error "boom" }

/-- A model client whose completion call always raises. -/
def llmFail : List Message → Except String String :=
  fun _ => Except.error "boom"

/-- A model client that never produces a final answer. -/
def llmNoAnswer : List Message → Except String String :=
  fun _ => Except.ok "Thought: still thinking"

/-- A model client that replies with a final answer immediately. -/
def llmFinalColon : List Message → Except String String :=
  fun _ => Except.ok "Final Answer: 42"

/-- A model client whose reply mentions the final-answer marker with no
    colon anywhere. -/
def llmFinalNoColon : List Message → Except String String :=
  fun _ => Except.ok "We know the Final Answer now"

/-! ### Helper lemmas about the string primitives -/

theorem splitOnCL_ne_nil (sep s : List Char) (fuel : Nat) :
    splitOnCL sep s fuel ≠ [] := by
  cases fuel with
  | zero => simp [splitOnCL]
  | succ n => cases h : findSub sep s <;> simp [splitOnCL, h]

theorem findSub_none_splitOnCL (sep s : List Char) (fuel : Nat)
    (h : findSub sep s = Option.none) : splitOnCL sep s fuel = [s] := by
  cases fuel <;> simp [splitOnCL, h]

theorem findSub_isPrefix (sep : List Char) :
    ∀ (s : List Char) (i : Nat), findSub sep s = some i →
      sep.isPrefixOf (s.drop i) = true := by
  intro s
  induction s with
  | nil =>
    intro i h
    unfold findSub at h
    split at h
    · cases h
      simpa using ‹sep.isPrefixOf ([] : List Char) = true›
    · cases h
  | cons c t ih =>
    intro i h
    by_cases hp : sep.isPrefixOf (c :: t)
    · simp [findSub, hp] at h
      subst h
      simpa using hp
    · simp [findSub, hp] at h
      obtain ⟨j, hj, hij⟩ := h
      subst hij
      simpa using ih j hj

theorem findSub_mono (p q : List Char) (hpq : p <+: q) :
    ∀ s : List Char, (findSub q s).isSome → (findSub p s).isSome := by
  intro s
  induction s with
  | nil =>
    intro h
    unfold findSub at h
    split at h
    · have hq : q = [] := List.prefix_nil.mp (List.isPrefixOf_iff_prefix.mp ‹_›)
      have hp : p = [] := List.prefix_nil.mp (hq ▸ hpq)
      simp [findSub, hp]
    · simp at h
  | cons c t ih =>
    intro h
    by_cases hq0 : q.isPrefixOf (c :: t)
    · have hp0 : p.isPrefixOf (c :: t) :=
        List.isPrefixOf_iff_prefix.mpr (hpq.trans (List.isPrefixOf_iff_prefix.mp hq0))
      simp [findSub, hp0]
    · simp [findSub, hq0] at h
      have := ih (by simpa using h)
      by_cases hp0 : p.isPrefixOf (c :: t) <;> simp [findSub, hp0, this]

theorem getLastD_default_irrel {α : Type} (l : List α) (a b : α) (hl : l ≠ []) :
    l.getLastD a = l.getLastD b := by
  rw [List.getLastD_eq_getLast?, List.getLastD_eq_getLast?]
  cases h : l.getLast? with
  | none => exact absurd (List.getLast?_eq_none_iff.mp h) hl
  | some x => rfl

theorem getLast?_eq_getLastD {α : Type} (l : List α) (d : α) (hl : l ≠ []) :
    l.getLast? = some (l.getLastD d) := by
  rw [List.getLastD_eq_getLast?]
  cases h : l.getLast? with
  | none => exact absurd (List.getLast?_eq_none_iff.mp h) hl
  | some x => rfl

theorem splitOnCL_getLast (sep : List Char) (hsep : sep ≠ []) :
    ∀ (fuel : Nat) (s : List Char), s.length < fuel →
      ∃ p, s = p ++ (splitOnCL sep s fuel).getLastD [] ∧
        findSub sep ((splitOnCL sep s fuel).getLastD []) = Option.none ∧
        ((findSub sep s = Option.none ∧ p = []) ∨
          ((findSub sep s).isSome ∧ ∃ q, p = q ++ sep)) := by
  intro fuel
  induction fuel with
  | zero => intro s h; omega
  | succ n ih =>
    intro s hs
    cases hf : findSub sep s with
    | none =>
      refine ⟨[], by simp [splitOnCL, hf], by simp [splitOnCL, hf, hf], Or.inl ⟨rfl, rfl⟩⟩
    | some i =>
      have hpre : sep.isPrefixOf (s.drop i) = true := findSub_isPrefix sep s i hf
      obtain ⟨u, hu⟩ := List.isPrefixOf_iff_prefix.mp hpre
      have hlen_sep : 0 < sep.length := List.length_pos.mpr hsep
      have hlen_u : sep.length + u.length = s.length - i := by
        have := congrArg List.length hu
        simpa [List.length_drop] using this
      have hu2 : u = s.drop (i + sep.length) := by
        have h1 : (s.drop i).drop sep.length = s.drop (i + sep.length) :=
          List.drop_drop sep.length i s
        rw [← h1, ← hu, List.drop_left]
      have hsi : s = s.take i ++ (sep ++ u) := by
        rw [hu, List.take_append_drop]
      have hslen : i + sep.length ≤ s.length := by omega
      have hrest : (s.drop (i + sep.length)).length < n := by
        rw [List.length_drop]
        omega
      obtain ⟨p', hp', hnone', hdich'⟩ := ih (s.drop (i + sep.length)) hrest
      have hsplit : splitOnCL sep s (n+1) =
          s.take i :: splitOnCL sep (s.drop (i + sep.length)) n := by
        simp [splitOnCL, hf]
      have hlast : (splitOnCL sep s (n+1)).getLastD [] =
          (splitOnCL sep (s.drop (i + sep.length)) n).getLastD [] := by
        rw [hsplit, List.getLastD_cons]
        exact getLastD_default_irrel _ _ _ (splitOnCL_ne_nil sep _ n)
      refine ⟨s.take i ++ sep ++ p', ?_, ?_, Or.inr ⟨by simp [hf], ?_⟩⟩
      · rw [hlast]
        calc s = s.take i ++ (sep ++ u) := hsi
          _ = s.take i ++ (sep ++ (p' ++ (splitOnCL sep (s.drop (i + sep.length)) n).getLastD [])) := by
              rw [← hp', ← hu2]
          _ = s.take i ++ sep ++ p' ++ (splitOnCL sep (s.drop (i + sep.length)) n).getLastD [] := by
              simp [List.append_assoc]
      · rw [hlast]; exact hnone'
      · rcases hdich' with ⟨_, hp'nil⟩ | ⟨_, q', hq'⟩
        · exact ⟨s.take i, by simp [hp'nil]⟩
        · exact ⟨s.take i ++ sep ++ q', by simp [hq', List.append_assoc]⟩

theorem mk_toList (s : String) : String.mk s.toList = s := by
  cases s
  rfl

theorem toList_ne_nil_of_ne_empty (s : String) (h : s ≠ "") : s.toList ≠ [] := by
  intro hnil
  apply h
  cases s with
  | mk d =>
    simp [String.toList] at hnil
    simp [hnil]

theorem pySplit_last_spec (s sep : String) (hsep : sep ≠ "")
    (hocc : pyIn sep s = true) :
    ∃ p t : List Char, s.toList = p ++ sep.toList ++ t ∧
      findSub sep.toList t = Option.none ∧
      pyLast (pySplit s sep) = String.mk t := by
  have hsepl : sep.toList ≠ [] := toList_ne_nil_of_ne_empty sep hsep
  obtain ⟨p, hp, hnone, hdich⟩ :=
    splitOnCL_getLast sep.toList hsepl (s.toList.length + 1) s.toList (by omega)
  rcases hdich with ⟨hnonef, _⟩ | ⟨_, q, hq⟩
  · exact absurd hocc (by rw [pyIn, hnonef]; simp)
  · refine ⟨q, (splitOnCL sep.toList s.toList (s.toList.length + 1)).getLastD [], ?_, hnone, ?_⟩
    · exact hp.trans (by rw [hq, List.append_assoc])
    · have hne := splitOnCL_ne_nil sep.toList s.toList (s.toList.length + 1)
      rw [pyLast, pySplit, List.getLastD_eq_getLast?, List.getLast?_map,
        getLast?_eq_getLastD _ ([] : List Char) hne]
      rfl

theorem pySplit_no_occurrence (s sep : String) (h : pyIn sep s = false) :
    pySplit s sep = [s] := by
  rw [pySplit, findSub_none_splitOnCL]
  · simp [mk_toList]
  · rw [pyIn] at h
    cases hf : findSub sep.toList s.toList with
    | none => rfl
    | some i => rw [hf] at h; simp at h

theorem head?_dropWhile_not (p : Char → Bool) :
    ∀ (l : List Char) (c : Char), (l.dropWhile p).head? = some c → p c = false := by
  intro l
  induction l with
  | nil => intro c h; simp at h
  | cons a t ih =>
    intro c h
    by_cases ha : p a
    · rw [List.dropWhile_cons_of_pos ha] at h
      exact ih c h
    · rw [List.dropWhile_cons_of_neg ha] at h
      simp at h
      rw [← h]
      simpa using ha

theorem dropWhile_eq_self_of_head? (p : Char → Bool) (l : List Char)
    (h : ∀ c, l.head? = some c → p c = false) : l.dropWhile p = l := by
  cases l with
  | nil => rfl
  | cons a t =>
    have := h a rfl
    simp [List.dropWhile_cons, this]

theorem stripList_inner (p : Char → Bool) (l : List Char) :
    (((l.dropWhile p).reverse.dropWhile p).reverse).dropWhile p =
      ((l.dropWhile p).reverse.dropWhile p).reverse := by
  apply dropWhile_eq_self_of_head?
  intro c hc
  have hpre : ((l.dropWhile p).reverse.dropWhile p).reverse <+: l.dropWhile p :=
    List.rdropWhile_prefix p (l.dropWhile p)
  obtain ⟨r, hr⟩ := hpre
  have hAhead : (l.dropWhile p).head? = some c := by
    rw [← hr]
    cases hB : ((l.dropWhile p).reverse.dropWhile p).reverse with
    | nil => rw [hB] at hc; simp at hc
    | cons b bs =>
      rw [hB] at hc
      simp at hc
      simp [hc]
  exact head?_dropWhile_not p l c hAhead

theorem stripList_idem (p : Char → Bool) (l : List Char) :
    ((((((l.dropWhile p).reverse.dropWhile p).reverse).dropWhile p).reverse.dropWhile p).reverse) =
      ((l.dropWhile p).reverse.dropWhile p).reverse := by
  rw [stripList_inner]
  rw [List.reverse_reverse]
  exact stripList_inner p l

theorem pyStrip_idem (s : String) : pyStrip (pyStrip s) = pyStrip s := by
  show String.mk _ = String.mk _
  rw [pyStrip]
  have htl : (String.mk (((s.toList.dropWhile pyIsSpace).reverse.dropWhile pyIsSpace).reverse)).toList =
      ((s.toList.dropWhile pyIsSpace).reverse.dropWhile pyIsSpace).reverse := rfl
  rw [htl, stripList_idem]

theorem mk_append (a b : List Char) : String.mk a ++ String.mk b = String.mk (a ++ b) := rfl

theorem toList_append (a b : String) : (a ++ b).toList = a.toList ++ b.toList := by
  cases a
  cases b
  rfl

theorem pyStartsWith_append (a b p : String) (h : pyStartsWith a p = true) :
    pyStartsWith (a ++ b) p = true := by
  rw [pyStartsWith] at h ⊢
  apply List.isPrefixOf_iff_prefix.mpr
  rw [toList_append]
  exact (List.isPrefixOf_iff_prefix.mp h).trans (List.prefix_append _ _)

theorem pyIn_final_mono (s : String) (h : pyIn "Final Answer:" s = true) :
    pyIn "Final Answer" s = true := by
  rw [pyIn] at h ⊢
  have hpre : "Final Answer".toList <+: "Final Answer:".toList := by decide
  simpa using findSub_mono _ _ hpre s.toList (by simpa using h)

theorem not_action_of_action_input (l : String)
    (h : pyStartsWith l "Action Input:" = true) : pyStartsWith l "Action:" = false := by
  rw [pyStartsWith] at h ⊢
  obtain ⟨r, hr⟩ := List.isPrefixOf_iff_prefix.mp h
  have hr' : "Action Input:".toList ++ r = l.data := hr
  by_contra hc
  simp at hc
  obtain ⟨r2, hr2⟩ := hc
  rw [← hr'] at hr2
  have h7 : (['A', 'c', 't', 'i', 'o', 'n', ':'] ++ r2).take 7 =
      ("Action Input:".toList ++ r).take 7 := by rw [hr2]
  have e2 : "Action Input:".toList =
      ['A', 'c', 't', 'i', 'o', 'n', ' ', 'I', 'n', 'p', 'u', 't', ':'] := rfl
  rw [e2] at h7
  simp [List.take_append_eq_append_take] at h7

/-! ### Helper lemmas about the parser fold -/

theorem foldl_parse_step_inert :
    ∀ (lines : List String),
      (∀ l ∈ lines, pyStartsWith l "Action:" = false ∧
        pyStartsWith l "Action Input:" = false) →
      ∀ (a : Option String) (buf : List String),
        lines.foldl parse_step
          { action := a, action_input := buf, is_action_input := false } =
          { action := a, action_input := buf, is_action_input := false } := by
  intro lines
  induction lines with
  | nil => intro _ a buf; rfl
  | cons l ls ih =>
    intro h a buf
    have hl := h l (by simp)
    have hstep : parse_step { action := a, action_input := buf, is_action_input := false } l =
        { action := a, action_input := buf, is_action_input := false } := by
      by_cases ho : pyStartsWith l "Observation:" <;>
        simp [parse_step, hl.1, hl.2, ho]
    rw [List.foldl_cons, hstep]
    exact ih (fun x hx => h x (by simp [hx])) a buf

theorem foldl_parse_step_collect :
    ∀ (ls : List String),
      (∀ l ∈ ls, pyStrip l ≠ "" ∧ pyStartsWith l "Action:" = false ∧
        pyStartsWith l "Action Input:" = false ∧
        pyStartsWith l "Observation:" = false) →
      ∀ (a : Option String) (buf : List String),
        ls.foldl parse_step
          { action := a, action_input := buf, is_action_input := true } =
          { action := a, action_input := buf ++ ls.map (fun l => pyStrip l),
            is_action_input := true } := by
  intro ls
  induction ls with
  | nil => intro _ a buf; simp
  | cons l ls ih =>
    intro h a buf
    have hl := h l (by simp)
    have hstep : parse_step { action := a, action_input := buf, is_action_input := true } l =
        { action := a, action_input := buf ++ [pyStrip l], is_action_input := true } := by
      simp [parse_step, hl.1, hl.2.1, hl.2.2.1, hl.2.2.2]
    rw [List.foldl_cons, hstep, ih (fun x hx => h x (by simp [hx]))]
    simp

/-! ### Helper lemmas about the conversation loop -/

theorem loop_exhaust (tools : Registry) (llm : List Message → Except String String)
    (h : ∀ m, ∃ c, llm m = Except.ok c ∧ pyIn "Final Answer" (pyStrip c) = false) :
    ∀ (fuel : Nat) (msgs : List Message),
      (loop tools llm msgs fuel).modelCalls = fuel ∧
      (loop tools llm msgs fuel).answer = exhaustMsg := by
  intro fuel
  induction fuel with
  | zero => intro msgs; exact ⟨rfl, rfl⟩
  | succ n ih =>
    intro msgs
    obtain ⟨c, hc, hfa⟩ := h msgs
    simp only [loop]
    rw [hc]
    simp only [hfa, if_false]
    by_cases hact : (pyIn "Action" (pyStrip c) && pyIn "Action Input" (pyStrip c)) = true
    · simp only [hact, if_true]
      refine ⟨?_, ?_⟩
      · show (loop tools llm _ n).modelCalls + 1 = n + 1
        rw [(ih _).1]
      · show (loop tools llm _ n).answer = exhaustMsg
        exact (ih _).2
    · simp only [hact, if_false]
      refine ⟨?_, ?_⟩
      · show (loop tools llm _ n).modelCalls + 1 = n + 1
        rw [(ih _).1]
      · show (loop tools llm _ n).answer = exhaustMsg
        exact (ih _).2

theorem loop_append_only (tools : Registry) (llm : List Message → Except String String) :
    ∀ (fuel : Nat) (msgs : List Message),
      msgs <+: (loop tools llm msgs fuel).messages := by
  intro fuel
  induction fuel with
  | zero => intro msgs; exact List.prefix_refl msgs
  | succ n ih =>
    intro msgs
    simp only [loop]
    cases hc : llm msgs with
    | error e => exact List.prefix_refl msgs
    | ok c =>
      simp only
      by_cases hfa : pyIn "Final Answer" (pyStrip c) = true
      · simp only [hfa, if_true]
        exact List.prefix_append _ _
      · simp only [hfa, if_false]
        by_cases hact : (pyIn "Action" (pyStrip c) && pyIn "Action Input" (pyStrip c)) = true
        · simp only [hact, if_true]
          refine List.IsPrefix.trans ?_ (ih _)
          rw [List.append_assoc]
          exact List.prefix_append _ _
        · simp only [hact, if_false]
          exact List.IsPrefix.trans (List.prefix_append _ _) (ih _)

/-! ### The claims -/

/-- C1: the claim says the registry's lookup key is the display name
    lowercased with spaces replaced by underscores, so that a tool named
    "Ares Internet Search Tool" is invocable via
    `Action: ares_internet_search_tool`.  The code's `format_tools` keys the
    registry by the raw display name instead (contradicting its own
    docstring and debug output), so the normalized action fails to resolve:
    evaluated at the failing input, the registry key is the raw name, the
    normalized key is absent, and dispatch returns the tool-not-found
    observation. -/
theorem C1_registry_key_is_raw_display_name :
    dictKeys (format_tools [aresLikeTool]) = ["Ares Internet Search Tool"] ∧
    pyReplace (pyLower "Ares Internet Search Tool") " " "_" =
      "ares_internet_search_tool" ∧
    dictGet (format_tools [aresLikeTool]) "ares_internet_search_tool" = Option.none ∧
    tool_call (format_tools [aresLikeTool])
        "Action: ares_internet_search_tool\nAction Input: query" =
      "Observation: Tool 'ares_internet_search_tool' not found. Available tools: ['Ares Internet Search Tool']" :=
  ⟨rfl, rfl, rfl, rfl⟩

/-- C2: whenever the model's reply contains `Final Answer:`, the loop
    terminates in that iteration with exactly one model call and no tool
    dispatch, appends only the assistant reply, and returns the trimmed
    text following the last occurrence of `Final Answer:` (the returned
    segment `t` contains no further occurrence). -/
theorem C2_final_answer_returns_last_trimmed (tools : Registry)
    (llm : List Message → Except String String) (msgs : List Message)
    (fuel : Nat) (content : String)
    (hok : llm msgs = Except.ok content)
    (hfa : pyIn "Final Answer:" (pyStrip content) = true) :
    ∃ p t : String,
      pyStrip content = p ++ "Final Answer:" ++ t ∧
      pyIn "Final Answer:" t = false ∧
      loop tools llm msgs (fuel+1) =
        { messages := msgs ++ [{ role := "assistant", content := pyStrip content }],
          modelCalls := 1, dispatches := 0, answer := pyStrip t } := by
  have hr : pyIn "Final Answer" (pyStrip content) = true := pyIn_final_mono _ hfa
  obtain ⟨pl, tl, hsplit, hnone, hlastEq⟩ :=
    pySplit_last_spec (pyStrip content) "Final Answer:" (by decide) hfa
  refine ⟨String.mk pl, String.mk tl, ?_, ?_, ?_⟩
  · exact String.ext hsplit
  · rw [pyIn]
    have he : (String.mk tl).toList = tl := rfl
    rw [he, hnone]
    rfl
  · simp only [loop]
    rw [hok]
    simp only [hr, if_true]
    rw [hlastEq]

/-- C2 witness: a reply `Final Answer: 42` terminates the loop at once. -/
theorem C2_witness :
    ∃ p t : String,
      pyStrip "Final Answer: 42" = p ++ "Final Answer:" ++ t ∧
      pyIn "Final Answer:" t = false ∧
      loop [] llmFinalColon [] (9+1) =
        { messages := [] ++ [{ role := "assistant", content := pyStrip "Final Answer: 42" }],
          modelCalls := 1, dispatches := 0, answer := pyStrip t } :=
  C2_final_answer_returns_last_trimmed [] llmFinalColon [] 9 "Final Answer: 42"
    rfl (by decide)

/-- C3: when no reply ever contains a final answer, the loop performs
    exactly `max_steps` model calls (the default budget being 10) and
    returns the fixed exhaustion message. -/
theorem C3_exhaustion_after_max_steps (tools : Registry)
    (llm : List Message → Except String String) (msgs : List Message)
    (prompt : String)
    (h : ∀ m, ∃ c, llm m = Except.ok c ∧ pyIn "Final Answer" (pyStrip c) = false) :
    (agentCall tools llm msgs prompt).modelCalls = max_steps ∧
    (agentCall tools llm msgs prompt).answer = exhaustMsg ∧
    max_steps = 10 := by
  refine ⟨?_, ?_, rfl⟩
  · exact (loop_exhaust tools llm h max_steps _).1
  · exact (loop_exhaust tools llm h max_steps _).2

/-- C3 witness: a model that always replies `Thought: still thinking`
    exhausts the budget of 10 calls. -/
theorem C3_witness :
    (agentCall [] llmNoAnswer [] "What is 2+2?").modelCalls = max_steps ∧
    (agentCall [] llmNoAnswer [] "What is 2+2?").answer = exhaustMsg ∧
    max_steps = 10 :=
  C3_exhaustion_after_max_steps [] llmNoAnswer [] "What is 2+2?"
    (fun _ => ⟨"Thought: still thinking", rfl, by decide⟩)

/-- C4: when a registered tool's `run` raises, `tool_call` returns the
    error-reporting observation string — prefixed with `Observation:` and
    carrying the error text — instead of propagating the exception (the
    embedding's `tool_call` is a total function into strings). -/
theorem C4_tool_error_wrapped (tools : Registry) (response a : String)
    (inp : PyObj) (tool : Tool) (e : String)
    (hparse : parse_action_string response = (some a, inp))
    (ha : a ≠ "")
    (hlook : dictGet tools (pyLower (pyStrip a)) = some tool)
    (hrun : tool.run inp = Except.error e) :
    tool_call tools response =
      "Observation: There was an error executing the tool\nError: " ++ e ∧
    pyStartsWith (tool_call tools response) "Observation:" = true := by
  have hmain : tool_call tools response =
      "Observation: There was an error executing the tool\nError: " ++ e := by
    rw [tool_call, hparse]
    simp only [ha, ne_eq, not_false_eq_true, if_true, hlook, hrun]
  refine ⟨hmain, ?_⟩
  rw [hmain]
  exact pyStartsWith_append _ _ _ (by decide)

/-- C4 witness: a tool that raises `boom` yields the error observation. -/
theorem C4_witness :
    tool_call [("t", failTool)] "Action: t\nAction Input: x" =
      "Observation: There was an error executing the tool\nError: " ++ "boom" ∧
    pyStartsWith (tool_call [("t", failTool)] "Action: t\nAction Input: x")
      "Observation:" = true :=
  C4_tool_error_wrapped [("t", failTool)] "Action: t\nAction Input: x" "t"
    (PyObj.str "x") failTool "boom" rfl (by decide) rfl rfl

/-- C5 counterexample: `"Action Input: foo"` has no line beginning with
    `Action:`, yet the parser returns `(None, "foo")`, not `(None, "")` —
    the claimed result is wrong whenever an `Action Input:` line appears
    without an `Action:` line. -/
theorem C5_counterexample :
    (∀ l ∈ pySplit "Action Input: foo" "\n", pyStartsWith l "Action:" = false) ∧
    parse_action_string "Action Input: foo" = (Option.none, PyObj.str "foo") ∧
    PyObj.str "foo" ≠ PyObj.str "" := by
  refine ⟨by decide, rfl, by simp⟩

/-- C5 (amended): for text with no line beginning with `Action:` and no
    line beginning with `Action Input:`, the parser returns `(None, "")`
    without raising; and dispatch with a parsed action of `None` (or empty,
    or unregistered) returns the tool-not-found observation naming the
    attempted action and listing the registry keys. -/
theorem C5_amended_no_action_lines (text resp a : String) (inp : PyObj)
    (tools : Registry)
    (h : ∀ l ∈ pySplit text "\n", pyStartsWith l "Action:" = false ∧
      pyStartsWith l "Action Input:" = false)
    (hp : parse_action_string resp = (some a, inp))
    (hm : a = "" ∨ dictGet tools (pyLower (pyStrip a)) = Option.none) :
    parse_action_string text = (Option.none, PyObj.str "") ∧
    tool_call tools text =
      "Observation: Tool 'None' not found. Available tools: " ++
        pyListRepr (dictKeys tools) ∧
    tool_call tools resp =
      "Observation: Tool '" ++ a ++ "' not found. Available tools: " ++
        pyListRepr (dictKeys tools) := by
  have hparse : parse_action_string text = (Option.none, PyObj.str "") := by
    simp only [parse_action_string, parse_lines]
    rw [foldl_parse_step_inert (pySplit text "\n") h Option.none []]
    rfl
  refine ⟨hparse, ?_, ?_⟩
  · rw [tool_call, hparse]
    rfl
  · rw [tool_call, hp]
    rcases hm with ha | hlook
    · subst ha
      simp [toolNotFound, pyFmtOptStr]
    · by_cases ha : a = ""
      · subst ha
        simp [toolNotFound, pyFmtOptStr]
      · simp only [ha, ne_eq, not_false_eq_true, if_true, hlook]
        simp [toolNotFound, pyFmtOptStr]

/-- C5 witness: a plain-prose reply parses to `(None, "")` and dispatch
    reports the miss; an unregistered action `zzz` is likewise reported. -/
theorem C5_witness :
    parse_action_string "I could not find an action to take." =
      (Option.none, PyObj.str "") ∧
    tool_call [] "I could not find an action to take." =
      "Observation: Tool 'None' not found. Available tools: " ++
        pyListRepr (dictKeys []) ∧
    tool_call [] "Action: zzz\nAction Input: 1" =
      "Observation: Tool '" ++ "zzz" ++ "' not found. Available tools: " ++
        pyListRepr (dictKeys []) :=
  C5_amended_no_action_lines "I could not find an action to take."
    "Action: zzz\nAction Input: 1" "zzz" (PyObj.int 1) []
    (by decide) rfl (Or.inr rfl)

/-- C6 counterexample: in the block `"Action Input: x\n  y z"` the
    continuation line `"  y z"` is collected as `"y z"`, not verbatim: the
    parsed input is `"x\ny z"`, not the verbatim join `"x\n  y z"`. -/
theorem C6_counterexample :
    parse_action_string "Action Input: x\n  y z" =
      (Option.none, PyObj.str "x\ny z") ∧
    PyObj.str "x\ny z" ≠ PyObj.str "x\n  y z" := by
  refine ⟨rfl, by simp⟩

/-- C6 (amended): for a multi-line `Action Input:` block — the seed line
    followed by non-blank lines that are not `Action:`, `Action Input:` or
    `Observation:` lines — every continuation line is appended after
    trimming surrounding whitespace (not verbatim), the buffer is joined
    with newline separators, the joined string is opportunistically decoded,
    and on decode failure the raw joined string is kept unchanged. -/
theorem C6_amended_multiline_input_stripped (l0 : String) (ls : List String)
    (h0 : pyStartsWith l0 "Action Input:" = true)
    (hls : ∀ l ∈ ls, pyStrip l ≠ "" ∧ pyStartsWith l "Action:" = false ∧
      pyStartsWith l "Action Input:" = false ∧
      pyStartsWith l "Observation:" = false) :
    parse_lines (l0 :: ls) =
      (Option.none, decodeOrRaw (pyJoin "\n"
        ((if pyStrip (pyReplace l0 "Action Input:" "") ≠ "" then
            [pyStrip (pyReplace l0 "Action Input:" "")] else []) ++
          ls.map (fun l => pyStrip l)))) := by
  have h0a : pyStartsWith l0 "Action:" = false := not_action_of_action_input l0 h0
  simp only [parse_lines, List.foldl_cons]
  have hstep : parse_step
      { action := Option.none, action_input := [], is_action_input := false } l0 =
      { action := Option.none,
        action_input := if pyStrip (pyReplace l0 "Action Input:" "") ≠ "" then
          [pyStrip (pyReplace l0 "Action Input:" "")] else [],
        is_action_input := true } := by
    by_cases hseed : pyStrip (pyReplace l0 "Action Input:" "") ≠ "" <;>
      simp [parse_step, h0a, h0, hseed]
  rw [hstep, foldl_parse_step_collect ls hls Option.none _]

/-- C6 witness: the block `"Action Input: x"` + `"  y z"` joins to
    `"x\ny z"` and stays a raw string after the failed decode. -/
theorem C6_witness :
    parse_lines ("Action Input: x" :: ["  y z"]) =
      (Option.none, decodeOrRaw (pyJoin "\n"
        ((if pyStrip (pyReplace "Action Input: x" "Action Input:" "") ≠ "" then
            [pyStrip (pyReplace "Action Input: x" "Action Input:" "")] else []) ++
          ["  y z"].map (fun l => pyStrip l)))) :=
  C6_amended_multiline_input_stripped "Action Input: x" ["  y z"]
    (by decide) (by decide)

/-- C7 counterexample: in `"Action Input: a\nAction: t\nb"` the `Action:`
    line does not clear the collecting flag, so the following line `"b"` is
    still collected: the parsed input is `"a\nb"`, not `"a"` as the claim
    requires. -/
theorem C7_counterexample :
    parse_action_string "Action Input: a\nAction: t\nb" =
      (some "t", PyObj.str "a\nb") ∧
    PyObj.str "a\nb" ≠ PyObj.str "a" := by
  refine ⟨rfl, by simp⟩

/-- C7 (amended): a line beginning with `Action:` sets the parsed action to
    the trimmed remainder of the line (all occurrences of the marker
    removed) and leaves the collecting flag and the input buffer unchanged —
    it does not clear the flag, so lines following it are still collected
    whenever the flag was already set. -/
theorem C7_amended_action_line_keeps_flag (st : ParseState) (line : String)
    (h : pyStartsWith line "Action:" = true) :
    parse_step st line =
      { action := some (pyStrip (pyReplace line "Action:" "")),
        action_input := st.action_input,
        is_action_input := st.is_action_input } := by
  simp [parse_step, h]

/-- C7 witness: processing `"Action: t"` from a collecting state keeps the
    buffer and the flag. -/
theorem C7_witness :
    parse_step { action := Option.none, action_input := ["a"], is_action_input := true }
        "Action: t" =
      { action := some (pyStrip (pyReplace "Action: t" "Action:" "")),
        action_input := ["a"], is_action_input := true } :=
  C7_amended_action_line_keeps_flag
    { action := Option.none, action_input := ["a"], is_action_input := true }
    "Action: t" (by decide)

/-- C8: when the completion call raises, the loop aborts immediately in
    that iteration and returns the error string, leaving the conversation
    history exactly as it was — no assistant message is appended for the
    failed call. -/
theorem C8_model_failure_aborts_cleanly (tools : Registry)
    (llm : List Message → Except String String) (msgs : List Message)
    (fuel : Nat) (e : String)
    (hllm : llm msgs = Except.error e) :
    loop tools llm msgs (fuel+1) =
      { messages := msgs, modelCalls := 1, dispatches := 0,
        answer := "Error: Could not get a response from the model - " ++ e } := by
  simp [loop, hllm]

/-- C8 witness: a failing model client aborts with the error string and an
    unchanged history. -/
theorem C8_witness :
    loop [] llmFail [] (9+1) =
      { messages := [], modelCalls := 1, dispatches := 0,
        answer := "Error: Could not get a response from the model - " ++ "boom" } :=
  C8_model_failure_aborts_cleanly [] llmFail [] 9 "boom" rfl

/-- C9: after initialization the history starts with one or two system
    messages (the optional custom preamble, then the instruction prompt),
    and every call of the agent only appends to the history — the existing
    messages, the system prefix included, are preserved as a prefix, never
    removed, reordered or mutated. -/
theorem C9_history_append_only (sp : Option String) (toolList : List Tool) :
    (1 ≤ (initMessages sp (formatReactPrompt toolList)).length ∧
      (initMessages sp (formatReactPrompt toolList)).length ≤ 2 ∧
      ∀ m ∈ initMessages sp (formatReactPrompt toolList), m.role = "system") ∧
    (∀ (tools : Registry) (llm : List Message → Except String String)
        (msgs : List Message) (prompt : String),
      msgs <+: (agentCall tools llm msgs prompt).messages) := by
  constructor
  · rcases sp with _ | s
    · refine ⟨by simp [initMessages], by simp [initMessages], ?_⟩
      intro m hm
      simp [initMessages] at hm
      simp [hm]
    · by_cases hs : s = ""
      · refine ⟨by simp [initMessages, hs], by simp [initMessages, hs], ?_⟩
        intro m hm
        simp [initMessages, hs] at hm
        simp [hm]
      · refine ⟨by simp [initMessages, hs], by simp [initMessages, hs], ?_⟩
        intro m hm
        simp [initMessages, hs] at hm
        rcases hm with hm | hm <;> simp [hm]
  · intro tools llm msgs prompt
    rw [agentCall]
    exact List.IsPrefix.trans (List.prefix_append _ _)
      (loop_append_only tools llm max_steps _)

/-- C10: a reply containing `Final Answer` but no `Final Answer:` anywhere
    still terminates the loop in that iteration — the split on the
    colon-bearing marker leaves the whole reply as its only segment, so the
    entire trimmed reply is returned, with no tool dispatch. -/
theorem C10_final_answer_without_colon (tools : Registry)
    (llm : List Message → Except String String) (msgs : List Message)
    (fuel : Nat) (content : String)
    (hok : llm msgs = Except.ok content)
    (h1 : pyIn "Final Answer" (pyStrip content) = true)
    (h2 : pyIn "Final Answer:" (pyStrip content) = false) :
    loop tools llm msgs (fuel+1) =
      { messages := msgs ++ [{ role := "assistant", content := pyStrip content }],
        modelCalls := 1, dispatches := 0, answer := pyStrip content } := by
  have hsplit : pySplit (pyStrip content) "Final Answer:" = [pyStrip content] :=
    pySplit_no_occurrence _ _ h2
  simp only [loop]
  rw [hok]
  simp only [h1, if_true]
  rw [hsplit]
  simp [pyLast, pyStrip_idem]

/-- C10 witness: the reply `We know the Final Answer now` (no colon) is
    returned whole. -/
theorem C10_witness :
    loop [] llmFinalNoColon [] (9+1) =
      { messages :=
          [] ++ [{ role := "assistant", content := pyStrip "We know the Final Answer now" }],
        modelCalls := 1, dispatches := 0,
        answer := pyStrip "We know the Final Answer now" } :=
  C10_final_answer_without_colon [] llmFinalNoColon [] 9
    "We know the Final Answer now" rfl (by decide) (by decide)
